import Mathlib

/-!
Verification development for the pandora/pipeline telegraf output plugins.

The definitions below are a shallow embedding of the Go sources:
  plugins/outputs/pipeline/pipeline.go   (the "Pipeline" variant)
  the pandora TSDB output source         (the "PandoraTSDB" variant)
Byte buffers are modelled as `List Char`, Go maps as association lists with
explicit lookup/insert/remove operations, and each backend (SDK) call is
modelled through an explicit response oracle or a small state machine, since
the SDK itself is an external collaborator.  Write calls return a `RunResult`
which is either a returned error value (`none` for a nil Go error) or a
runtime panic (a method call through a nil client interface).
-/

namespace Pandora

/-- Model of `strings.HasPrefix` on character lists. -/
def startsWithList : List Char → List Char → Bool
  | [], _ => true
  | _ :: _, [] => false
  | a :: as, b :: bs => (a = b) && startsWithList as bs

/-- Model of substring search over character lists. -/
def hasSubList (sub : List Char) : List Char → Bool
  | [] => startsWithList sub []
  | c :: rest => startsWithList sub (c :: rest) || hasSubList sub rest

/-- Model of Go `strings.Contains s sub`. -/
def strContains (s sub : String) : Bool := hasSubList sub.data s.data

/-- Model of Go `bytes.Split buf [sep]`: split a byte buffer at every
occurrence of the separator; `[]` splits to `[[]]` as in Go. -/
def splitOnChar (c : Char) : List Char → List (List Char)
  | [] => [[]]
  | x :: xs =>
    let r := splitOnChar c xs
    if x = c then [] :: r
    else
      match r with
      | [] => [[x]]
      | y :: ys => (x :: y) :: ys

/-- Series name of one line of the buffer, following `getSeries`: an empty
line yields nothing, a line with at least two comma-separated components
yields its first component, any other line yields nothing. -/
def lineSeries (line : List Char) : Option String :=
  match line with
  | [] => none
  | _ :: _ =>
    match splitOnChar ',' line with
    | s :: _ :: _ => some (String.mk s)
    | _ => none

/-- Model of `getSeries`: split the buffer at newlines and collect, in line
order, the first comma-separated component of every nonempty line that has
at least two such components.  The source appends unconditionally, so
duplicate series names are kept. -/
def getSeries (points : List Char) : List String :=
  (splitOnChar '\n' points).filterMap lineSeries

/-- Newline-join a list of lines, inverse view of the newline split. -/
def joinLines : List (List Char) → List Char
  | [] => []
  | [l] => l
  | l :: ls => l ++ '\n' :: joinLines ls

/-- Outcome of one entry-point invocation: a returned Go error value
(`none` is a nil error), or a runtime panic. -/
inductive RunResult where
  | returns (err : Option String)
  | panics
deriving DecidableEq

/-- The fixed error the TSDB variant initializes `err` with; it is returned
whenever the backend write fails and no branch resets `err` to nil. -/
def sentinelMsg : String := "Could not write to any PandoraTSDB server in cluster"

/-- The read error surfaced by `metric.NewReader` on an empty batch. -/
def eofMsg : String := "EOF"

/-- Configuration and connection state of the `PandoraTSDB` adapter.
`connected = true` models a completed successful `Connect` (the
`tsdb.TsdbAPI` client handle is non-nil). -/
structure TsdbAdapter where
  repo : String
  retention : String
  autoCreateSeries : Bool
  connected : Bool

/-- Backend calls issued by the TSDB variant during one `Write`. -/
inductive TsdbCall where
  | postPoints (repo : String) (buffer : List Char)
  | createSeries (repo series retention : String)
deriving DecidableEq

/-- Model of `PandoraTSDB.Write`.  `buffer` is the serialized batch,
`post` is the backend's response to `PostPointsFromBytes` (`none` =
success).  An empty batch makes the metric reader return `io.EOF`, which
`Write` returns before touching the client; a nonempty batch on an
unconnected adapter calls through the nil client interface and panics.
On a backend error: a message containing "field type conflict" resets the
error to nil (silent drop); a message containing "E7101" with
`auto_create_series` enabled triggers `createSeries` for every series in
the buffer but discards its result, leaving the sentinel error in place;
any other error leaves the sentinel error in place. -/
def tsdbWrite (a : TsdbAdapter) (buffer : List Char) (post : Option String) :
    RunResult × List TsdbCall :=
  if buffer = [] then (.returns (some eofMsg), [])
  else if a.connected = false then (.panics, [])
  else
    match post with
    | none => (.returns none, [.postPoints a.repo buffer])
    | some e =>
      if strContains e "field type conflict" then
        (.returns none, [.postPoints a.repo buffer])
      else if strContains e "E7101" && a.autoCreateSeries then
        (.returns (some sentinelMsg),
          .postPoints a.repo buffer ::
            (getSeries buffer).map (fun s => .createSeries a.repo s a.retention))
      else (.returns (some sentinelMsg), [.postPoints a.repo buffer])

/-! ### Association-list model of Go maps

The Pipeline variant stores its working schema, timestamp groups, export
specs and per-series key sets in Go maps.  They are embedded as association
lists with the three operations the source uses: lookup, overwrite
(`m[k] = v`), insert-only-if-absent (`if _, ok := m[k]; !ok`), and delete.
Go map iteration order is unspecified; the embedding fixes insertion order,
and every claim proved below is insensitive to that order. -/

/-- First binding of key `k`, as Go map lookup on a duplicate-free list. -/
def lookupKey {α β : Type} [DecidableEq α] : List (α × β) → α → Option β
  | [], _ => none
  | p :: rest, k => if p.1 = k then some p.2 else lookupKey rest k

/-- Go `m[k] = v`: overwrite the binding of `k`, or append a new one. -/
def setKey {α β : Type} [DecidableEq α] : List (α × β) → α → β → List (α × β)
  | [], k, v => [(k, v)]
  | p :: rest, k, v => if p.1 = k then (k, v) :: rest else p :: setKey rest k v

/-- Go `if _, ok := m[k]; !ok { m[k] = v }`: bind `k` only if absent. -/
def insertIfAbsent {α β : Type} [DecidableEq α] : List (α × β) → α → β → List (α × β)
  | [], k, v => [(k, v)]
  | p :: rest, k, v => if p.1 = k then p :: rest else p :: insertIfAbsent rest k v

/-- Go `delete(m, k)`. -/
def removeKey {α β : Type} [DecidableEq α] : List (α × β) → α → List (α × β)
  | [], _ => []
  | p :: rest, k => if p.1 = k then removeKey rest k else p :: removeKey rest k

/-- Go set insertion with first-seen order (`m[x] = struct{}{}`). -/
def addDistinct {α : Type} [DecidableEq α] (l : List α) (x : α) : List α :=
  if x ∈ l then l else l ++ [x]

/-! ### Point model and schema extraction (pipeline.go) -/

/-- A field value as delivered by the influx point model; `floatV` carries
its printed form, since no claim inspects float formatting. -/
inductive FVal where
  | intV (n : Int)
  | floatV (repr : String)
  | strV (s : String)
  | boolV (b : Bool)
deriving DecidableEq

/-- A parsed line-protocol point as consumed by `Pipeline.Write`. -/
structure Point where
  name : String
  tags : List (String × String)
  fields : List (String × FVal)
  time : Int
deriving DecidableEq

/-- Model of `getFieldType`: integers map to "long", floats to "float",
booleans to "boolean", strings (and, in the source, anything else) to
"string". -/
def getFieldType : FVal → String
  | .intV _ => "long"
  | .floatV _ => "float"
  | .strV _ => "string"
  | .boolV _ => "boolean"

/-- Model of `extractSchemaFromPoints`: the tag list collects the
namespaced key `<series>_<key>` of every tag of every point (duplicates
kept, as in the source slice append), and the field map binds each
namespaced field key to its inferred type (later points overwrite). -/
def extractSchemaFromPoints (pts : List Point) :
    List String × List (String × String) :=
  pts.foldl
    (fun acc pt =>
      (acc.1 ++ pt.tags.map (fun t => pt.name ++ "_" ++ t.1),
       pt.fields.foldl
         (fun m f => setKey m (pt.name ++ "_" ++ f.1) (getFieldType f.2)) acc.2))
    ([], [])

/-- Schema entry of the pipeline repo (`pipeline.RepoSchemaEntry`). -/
structure RepoSchemaEntry where
  key : String
  valueType : String
  required : Bool
deriving DecidableEq

/-! ### The working-schema computation of `updateSchema` -/

/-- Seed the working map from the fetched schema
(`schemas[schema.Key] = schema.ValueType`). -/
def seedSchemas (fetched : List RepoSchemaEntry) : List (String × String) :=
  fetched.foldl (fun m en => setKey m en.key en.valueType) []

/-- Add every extracted tag key with type "string" if absent. -/
def addTagKeys (tags : List String) (m : List (String × String)) :
    List (String × String) :=
  tags.foldl (fun m t => insertIfAbsent m t "string") m

/-- Add every extracted field key with its inferred type if absent. -/
def addFieldKeys (fields : List (String × String)) (m : List (String × String)) :
    List (String × String) :=
  fields.foldl (fun m kv => insertIfAbsent m kv.1 kv.2) m

/-- Remove every key of the originally fetched schema from the working map
(the 剔除原来的字段 loop), leaving only the delta. -/
def stripFetched (fetched : List RepoSchemaEntry) (m : List (String × String)) :
    List (String × String) :=
  fetched.foldl (fun m en => removeKey m en.key) m

/-- The delta `updateSchema` computes: seed from the fetched schema, add
absent tag keys as "string", add absent field keys with their inferred
types, ensure a "timestamp"/"long" entry, then strip every fetched key. -/
def updateSchemaDelta (fetched : List RepoSchemaEntry) (tags : List String)
    (fields : List (String × String)) : List (String × String) :=
  stripFetched fetched
    (insertIfAbsent (addFieldKeys fields (addTagKeys tags (seedSchemas fetched)))
      "timestamp" "long")

/-- The `target` slice: every delta binding as a non-required entry. -/
def deltaEntries (d : List (String × String)) : List RepoSchemaEntry :=
  d.map (fun kv => ⟨kv.1, kv.2, false⟩)

/-- The schema payload of the create/update repo call:
`append(schema.Schema, target...)`. -/
def updateSchemaPayload (fetched : List RepoSchemaEntry) (tags : List String)
    (fields : List (String × String)) : List RepoSchemaEntry :=
  fetched ++ deltaEntries (updateSchemaDelta fetched tags fields)

/-! ### Export reconciliation (createOrUpdateExport / updateExport)

The tsdb/pipeline SDK is an external collaborator; its create/update calls
are modelled from the spec's Backend Client contract as a small state
machine over the existing series and export objects, with the error codes
the adapter string-matches on ("E6302" series exists, "E18301" export
exists), plus an injection record for unexpected backend failures. -/

/-- The spec of an export object (`pipeline.ExportTsdbSpec`). -/
structure ExportSpec where
  destRepoName : String
  seriesName : String
  timestamp : String
  tags : List (String × String)
  fields : List (String × String)
deriving DecidableEq

/-- Backend-visible state: existing series names and export objects. -/
structure ExportState where
  seriesNames : List String
  exports : List (String × ExportSpec)
deriving DecidableEq

/-- Injected unexpected backend failures (beyond the already-exists codes). -/
structure ExportInj where
  createExportFail : String → Option String
  updateExportFail : String → Option String

/-- The ideal backend: no injected failures. -/
def noInj : ExportInj := ⟨fun _ => none, fun _ => none⟩

/-- Backend `CreateSeries`: fails with code E6302 when the series exists. -/
def bCreateSeries (st : ExportState) (name : String) : Option String × ExportState :=
  if name ∈ st.seriesNames then (some "E6302 series already exists", st)
  else (none, { st with seriesNames := name :: st.seriesNames })

/-- Backend `CreateExport`: fails with code E18301 when the export exists,
otherwise records the spec (unless an injected failure fires). -/
def bCreateExport (inj : ExportInj) (st : ExportState) (name : String)
    (spec : ExportSpec) : Option String × ExportState :=
  if (lookupKey st.exports name).isSome then
    (some "E18301 export already exists", st)
  else
    match inj.createExportFail name with
    | some e => (some e, st)
    | none => (none, { st with exports := (name, spec) :: st.exports })

/-- Backend `UpdateExport`: wholesale replacement of an existing spec. -/
def bUpdateExport (inj : ExportInj) (st : ExportState) (name : String)
    (spec : ExportSpec) : Option String × ExportState :=
  if (lookupKey st.exports name).isSome then
    match inj.updateExportFail name with
    | some e => (some e, st)
    | none =>
      let ex := st.exports.map (fun p => if p.1 = name then (name, spec) else p)
      (none, { st with exports := ex })
  else (some "E18401 export not found", st)

/-- The deterministic export name `export_<series>_toTSDB`. -/
def exportNameOf (seriesName : String) : String :=
  "export_" ++ seriesName ++ "_toTSDB"

/-- The spec `createOrUpdateExport` builds: destination repo, series name,
`#timestamp` reference, and a `#<series>_<key>` reference per tag and
field key. -/
def mkExportSpec (repo seriesName : String) (tags fields : List String) :
    ExportSpec :=
  { destRepoName := repo
    seriesName := seriesName
    timestamp := "#timestamp"
    tags := tags.map (fun t => (t, "#" ++ seriesName ++ "_" ++ t))
    fields := fields.map (fun f => (f, "#" ++ seriesName ++ "_" ++ f)) }

/-- Pipeline-side backend calls issued during one `Write`. -/
inductive PCall where
  | postData (repo : String) (lines : List String)
  | getRepo (repo : String)
  | createRepo (repo : String) (schema : List RepoSchemaEntry)
  | createTsdbRepo (repo : String)
  | updateRepo (repo : String) (schema : List RepoSchemaEntry)
  | createSeries (repo series retention : String)
  | createExport (repo name : String) (spec : ExportSpec)
  | updateExport (repo name : String) (spec : ExportSpec)
deriving DecidableEq

/-- Model of `createOrUpdateExport`: create the series with fixed
retention "7d" (its error is logged or nil'd and then overwritten, so it
never surfaces), attempt `CreateExport`, and on an E18301 "already exists"
answer issue `UpdateExport` with the identical spec, whose result is
returned; any other create failure is returned as-is. -/
def createOrUpdateExport (repo : String) (inj : ExportInj) (st : ExportState)
    (seriesName : String) (tags fields : List String) :
    Option String × ExportState × List PCall :=
  let sres := bCreateSeries st seriesName
  let name := exportNameOf seriesName
  let spec := mkExportSpec repo seriesName tags fields
  let baseCalls := [PCall.createSeries repo seriesName "7d",
                    PCall.createExport repo name spec]
  match bCreateExport inj sres.2 name spec with
  | (none, st2) => (none, st2, baseCalls)
  | (some e, st2) =>
    if strContains e "E18301" then
      let ures := bUpdateExport inj st2 name spec
      (ures.1, ures.2, baseCalls ++ [PCall.updateExport repo name spec])
    else (some e, st2, baseCalls)

/-- Model of the measurement aggregation in `updateExport`: per series
name, the first-seen-ordered sets of raw tag keys and field keys. -/
def collectMeasurements (pts : List Point) :
    List (String × (List String × List String)) :=
  pts.foldl
    (fun acc pt =>
      let cur := (lookupKey acc pt.name).getD ([], [])
      setKey acc pt.name
        (pt.tags.foldl (fun ts t => addDistinct ts t.1) cur.1,
         pt.fields.foldl (fun fs f => addDistinct fs f.1) cur.2))
    []

/-- Model of `updateExport`: run `createOrUpdateExport` for every series of
the batch, printing but keeping each error, so the returned error is the
last iteration's result (nil when there is no series). -/
def updateExportRun (repo : String) (inj : ExportInj) (st : ExportState)
    (pts : List Point) : Option String × ExportState × List PCall :=
  (collectMeasurements pts).foldl
    (fun acc m =>
      let r := createOrUpdateExport repo inj acc.2.1 m.1 m.2.1 m.2.2
      (r.1, r.2.1, acc.2.2 ++ r.2.2))
    (none, st, [])

/-! ### Schema reconciliation (updateSchema) -/

/-- Responses of the pipeline backend's repo calls for one reconciliation.
`repoSchema = none` models `GetRepo` failing with code E18102 (repo does
not exist); the source then proceeds with an empty fetched schema (the
SDK returns an empty output alongside the error).  `updateRepoFail` is
carried for completeness: the source overwrites the `UpdateRepo` error
before ever reading it. -/
structure SchemaBackend where
  repoSchema : Option (List RepoSchemaEntry)
  createRepoFail : Option String
  createTsdbRepoFail : Option String
  updateRepoFail : Option String

/-- Model of `updateSchema`.  On a missing repo it creates the pipeline
repo (a failure here is returned immediately), then the tsdb repo (a
failure is wrapped into the error variable, which the very next statement
overwrites with the export-reconciliation result), then reconciles
exports.  Otherwise it updates the repo with the fetched schema plus the
delta (the `UpdateRepo` error itself is overwritten) and reconciles
exports; either way the export-reconciliation result is what is
returned. -/
def updateSchemaRun (repo : String) (sb : SchemaBackend) (inj : ExportInj)
    (st : ExportState) (pts : List Point) :
    Option String × ExportState × List PCall :=
  let ex := extractSchemaFromPoints pts
  let fetched := sb.repoSchema.getD []
  let payload := updateSchemaPayload fetched ex.1 ex.2
  match sb.repoSchema with
  | none =>
    match sb.createRepoFail with
    | some e => (some e, st, [PCall.getRepo repo, PCall.createRepo repo payload])
    | none =>
      -- the wrapped tsdb-create error is dead: the next line overwrites it
      let _ := sb.createTsdbRepoFail.map
        (fun e => "create tsdb repo " ++ repo ++ " fail, " ++ e)
      let er := updateExportRun repo inj st pts
      (er.1, er.2.1,
       [PCall.getRepo repo, PCall.createRepo repo payload,
        PCall.createTsdbRepo repo] ++ er.2.2)
  | some _ =>
    -- the UpdateRepo error is dead for the same reason
    let _ := sb.updateRepoFail
    let er := updateExportRun repo inj st pts
    (er.1, er.2.1,
     [PCall.getRepo repo, PCall.updateRepo repo payload] ++ er.2.2)

/-! ### Point serialization and the pipeline write entry point -/

/-- Printed form of a field value (`%v`). -/
def renderFVal : FVal → String
  | .intV n => toString n
  | .floatV r => r
  | .strV s => s
  | .boolV b => if b then "true" else "false"

/-- Model of `convertTag`: `<series>_<key>=<value>` pairs, tab-terminated. -/
def convertTag (repoName : String) (tags : List (String × String)) : String :=
  tags.foldl (fun r t => r ++ repoName ++ "_" ++ t.1 ++ "=" ++ t.2 ++ "\t") ""

/-- Model of `convertField`, same shape with printed values. -/
def convertField (repoName : String) (fields : List (String × FVal)) : String :=
  fields.foldl
    (fun r f => r ++ repoName ++ "_" ++ f.1 ++ "=" ++ renderFVal f.2 ++ "\t") ""

/-- The timestamp grouping `points[timestamp] = append(points[timestamp], pt)`,
in first-seen timestamp order (Go map iteration order is unspecified; no
claim below depends on group order). -/
def groupByTime (pts : List Point) : List (Int × List Point) :=
  pts.foldl
    (fun acc pt => setKey acc pt.time ((lookupKey acc pt.time).getD [] ++ [pt]))
    []

/-- One output line per timestamp group: the concatenated tag and field
renderings of its points, ending in `timestamp=<ns>` and a newline. -/
def serializeGroup (ts : Int) (pts : List Point) : String :=
  (pts.foldl
    (fun d pt => d ++ convertTag pt.name pt.tags ++ convertField pt.name pt.fields)
    "")
  ++ "timestamp=" ++ toString ts ++ "\n"

/-- The Point Model Adapter's output, one string per timestamp group; the
wire buffer is their concatenation. -/
def serializePoints (pts : List Point) : List String :=
  (groupByTime pts).map (fun g => serializeGroup g.1 g.2)

/-- Configuration and connection state of the `Pipeline` adapter.
`connected = true` models a completed successful `Connect` (both the
pipeline and the tsdb client handles are non-nil). -/
structure PipelineAdapter where
  repo : String
  autoCreateRepo : Bool
  connected : Bool

/-- All backend responses/state consumed by one `Pipeline.Write` call. -/
structure PBackend where
  postResult : Option String
  schemaB : SchemaBackend
  inj : ExportInj
  st : ExportState

/-- Model of `Pipeline.Write` given the already-parsed points.  An
unconnected adapter calls `PostDataFromBytes` through a nil client and
panics (the parse of an empty batch succeeds, so even an empty batch
reaches the client call).  On a backend error containing "E18102" or
"E18111" with `auto_create_repo` set, the result of `updateSchema` is
returned; containing "E18102" with the flag unset, the error is reset to
nil; any other error leaves the error variable at its post-parse nil
value, so `Write` returns nil.  On success, when the wall-clock second
`nowUnix % 60` is below 11 the export reconciler is re-run over the batch
(its result printed and discarded) and nil is returned either way. -/
def pipelineWrite (a : PipelineAdapter) (pts : List Point) (nowUnix : Nat)
    (b : PBackend) : RunResult × ExportState × List PCall :=
  if a.connected = false then (.panics, b.st, [])
  else
    let post := PCall.postData a.repo (serializePoints pts)
    match b.postResult with
    | none =>
      if nowUnix % 60 < 11 then
        let er := updateExportRun a.repo b.inj b.st pts
        (.returns none, er.2.1, post :: er.2.2)
      else (.returns none, b.st, [post])
    | some e =>
      if strContains e "E18102" then
        if a.autoCreateRepo then
          let r := updateSchemaRun a.repo b.schemaB b.inj b.st pts
          (.returns r.1, r.2.1, post :: r.2.2)
        else (.returns none, b.st, [post])
      else if strContains e "E18111" then
        if a.autoCreateRepo then
          let r := updateSchemaRun a.repo b.schemaB b.inj b.st pts
          (.returns r.1, r.2.1, post :: r.2.2)
        else (.returns none, b.st, [post])
      else (.returns none, b.st, [post])

/-! ### Lemmas about the association-list operations -/

theorem lookupKey_setKey {α β : Type} [DecidableEq α] (m : List (α × β))
    (a k : α) (v : β) :
    lookupKey (setKey m a v) k = if k = a then some v else lookupKey m k := by
  induction m with
  | nil =>
    by_cases h : k = a
    · simp [setKey, lookupKey, h]
    · simp [setKey, lookupKey, h, Ne.symm h]
  | cons p rest ih =>
    by_cases hp : p.1 = a
    · by_cases hk : k = a
      · subst hk; simp [setKey, lookupKey, hp]
      · simp [setKey, lookupKey, hp, hk, Ne.symm hk]
    · by_cases hk : k = a
      · subst hk; simp [setKey, lookupKey, hp, ih]
      · simp [setKey, lookupKey, hp, hk, ih]

theorem lookupKey_insertIfAbsent {α β : Type} [DecidableEq α]
    (m : List (α × β)) (a k : α) (v : β) :
    lookupKey (insertIfAbsent m a v) k =
      match lookupKey m k with
      | some w => some w
      | none => if k = a then some v else none := by
  induction m with
  | nil =>
    by_cases h : k = a
    · simp [insertIfAbsent, lookupKey, h]
    · simp [insertIfAbsent, lookupKey, h, Ne.symm h]
  | cons p rest ih =>
    by_cases hp : p.1 = a
    · have hins : insertIfAbsent (p :: rest) a v = p :: rest := by
        simp only [insertIfAbsent]; rw [if_pos hp]
      rw [hins]
      cases hm : lookupKey (p :: rest) k with
      | some w => simp
      | none =>
        have hka : ¬ k = a := by
          intro h
          simp only [lookupKey] at hm
          rw [if_pos (hp.trans h.symm)] at hm
          exact Option.noConfusion hm
        simp [hka]
    · have hins : insertIfAbsent (p :: rest) a v = p :: insertIfAbsent rest a v := by
        simp only [insertIfAbsent]; rw [if_neg hp]
      rw [hins]
      by_cases hk : p.1 = k
      · simp [lookupKey, hk]
      · simp [lookupKey, hk, ih]

theorem lookupKey_removeKey {α β : Type} [DecidableEq α]
    (m : List (α × β)) (a k : α) :
    lookupKey (removeKey m a) k = if k = a then none else lookupKey m k := by
  induction m with
  | nil => simp [removeKey, lookupKey]
  | cons p rest ih =>
    by_cases hk : k = a
    · subst hk
      by_cases hp : p.1 = k
      · simp [removeKey, lookupKey, hp, ih]
      · simp [removeKey, lookupKey, hp, ih]
    · by_cases hp : p.1 = a
      · have hpk : ¬ p.1 = k := fun h => hk (h.symm.trans hp)
        simp [removeKey, lookupKey, hp, hk, ih, hpk, Ne.symm hk]
      · simp [removeKey, lookupKey, hp, hk, ih]

theorem lookupKey_isSome_iff {α β : Type} [DecidableEq α]
    (m : List (α × β)) (k : α) :
    (lookupKey m k).isSome = true ↔ k ∈ m.map Prod.fst := by
  induction m with
  | nil => simp [lookupKey]
  | cons p rest ih =>
    by_cases hp : p.1 = k
    · simp [lookupKey, hp]
    · simp [lookupKey, hp, Ne.symm hp, ih]

theorem lookupKey_isSome_of_mem {α β : Type} [DecidableEq α]
    {m : List (α × β)} {k : α} {v : β} (h : (k, v) ∈ m) :
    (lookupKey m k).isSome = true := by
  rw [lookupKey_isSome_iff]
  exact List.mem_map.2 ⟨(k, v), h, rfl⟩

theorem map_replace_of_lookup_none {α β : Type} [DecidableEq α]
    (m : List (α × β)) (k : α) (s : α × β) (h : lookupKey m k = none) :
    m.map (fun p => if p.1 = k then s else p) = m := by
  induction m with
  | nil => simp
  | cons p rest ih =>
    by_cases hp : p.1 = k
    · rw [lookupKey, if_pos hp] at h
      exact Option.noConfusion h
    · rw [lookupKey, if_neg hp] at h
      simp [hp, ih h]

theorem lookupKey_addTagKeys (tags : List String) (m : List (String × String))
    (k : String) :
    lookupKey (addTagKeys tags m) k =
      match lookupKey m k with
      | some w => some w
      | none => if k ∈ tags then some "string" else none := by
  induction tags generalizing m with
  | nil => cases h : lookupKey m k <;> simp [addTagKeys, h]
  | cons t ts ih =>
    rw [show addTagKeys (t :: ts) m = addTagKeys ts (insertIfAbsent m t "string")
          from rfl,
        ih, lookupKey_insertIfAbsent]
    cases h : lookupKey m k with
    | some w => simp
    | none =>
      by_cases hk : k = t
      · simp [hk]
      · by_cases hts : k ∈ ts <;> simp [hk, hts]

theorem lookupKey_addFieldKeys (fields : List (String × String))
    (m : List (String × String)) (k : String) :
    lookupKey (addFieldKeys fields m) k =
      match lookupKey m k with
      | some w => some w
      | none => lookupKey fields k := by
  induction fields generalizing m with
  | nil => cases h : lookupKey m k <;> simp [addFieldKeys, lookupKey, h]
  | cons f fs ih =>
    rw [show addFieldKeys (f :: fs) m = addFieldKeys fs (insertIfAbsent m f.1 f.2)
          from rfl,
        ih, lookupKey_insertIfAbsent]
    cases h : lookupKey m k with
    | some w => simp
    | none =>
      by_cases hk : k = f.1
      · simp [lookupKey, hk]
      · cases hfs : lookupKey fs k <;> simp [lookupKey, hk, Ne.symm hk, hfs]

theorem lookupKey_seedFold (fetched : List RepoSchemaEntry)
    (m : List (String × String)) (k : String) :
    (lookupKey (fetched.foldl (fun m en => setKey m en.key en.valueType) m) k).isSome
      = (fetched.any (fun en => en.key = k) || (lookupKey m k).isSome) := by
  induction fetched generalizing m with
  | nil => simp
  | cons en f ih =>
    rw [List.foldl_cons, ih, lookupKey_setKey]
    by_cases hk : k = en.key
    · simp [hk]
    · simp [hk, Ne.symm hk, Bool.or_assoc]

theorem lookupKey_seedSchemas (fetched : List RepoSchemaEntry) (k : String) :
    (lookupKey (seedSchemas fetched) k).isSome
      = fetched.any (fun en => en.key = k) := by
  rw [seedSchemas, lookupKey_seedFold]
  simp [lookupKey]

theorem lookupKey_stripFetched (fetched : List RepoSchemaEntry)
    (m : List (String × String)) (k : String) :
    lookupKey (stripFetched fetched m) k =
      if fetched.any (fun en => en.key = k) then none else lookupKey m k := by
  induction fetched generalizing m with
  | nil => simp [stripFetched]
  | cons en f ih =>
    rw [show stripFetched (en :: f) m = stripFetched f (removeKey m en.key)
          from rfl,
        ih, lookupKey_removeKey]
    by_cases hk : k = en.key
    · simp [hk]
    · simp [hk, Ne.symm hk]

theorem updateSchemaDelta_lookup (fetched : List RepoSchemaEntry)
    (tags : List String) (fields : List (String × String)) (k : String) :
    lookupKey (updateSchemaDelta fetched tags fields) k =
      if fetched.any (fun en => en.key = k) then none
      else if k ∈ tags then some "string"
      else
        match lookupKey fields k with
        | some ty => some ty
        | none => if k = "timestamp" then some "long" else none := by
  rw [updateSchemaDelta, lookupKey_stripFetched, lookupKey_insertIfAbsent,
      lookupKey_addFieldKeys, lookupKey_addTagKeys]
  by_cases hf : fetched.any (fun en => en.key = k) = true
  · simp [hf]
  · have hfalse : fetched.any (fun en => en.key = k) = false := by
      cases hb : fetched.any (fun en => en.key = k)
      · rfl
      · exact absurd hb hf
    have h0 : lookupKey (seedSchemas fetched) k = none := by
      have hs := lookupKey_seedSchemas fetched k
      rw [hfalse] at hs
      cases h : lookupKey (seedSchemas fetched) k
      · rfl
      · rw [h] at hs; exact absurd hs (by simp)
    rw [h0, hfalse]
    by_cases ht : k ∈ tags
    · simp [ht]
    · cases hfk : lookupKey fields k <;> simp [ht, hfk]

/-! ### Claim C1 -/

/-- C1 (amended).  The schema merge of `updateSchema` is additive-delta:
the payload of the update-repo call is the fetched schema followed by the
delta, and the delta binds a key `k` exactly as follows — nothing if `k`
is a key of the originally fetched schema (so no fetched key is re-sent,
retyped or removed); "string" if `k` is an extracted tag key; otherwise
the inferred type of `k` as an extracted field key; otherwise "long" if
`k` is "timestamp"; nothing else.  In particular a key extracted both as
tag and field enters as "string" (the tag pass runs first), which is the
one amendment to the claim as stated. -/
theorem updateSchema_delta_characterization :
    (∀ (repo : String) (sb : SchemaBackend) (inj : ExportInj) (st : ExportState)
        (pts : List Point) (fetched : List RepoSchemaEntry),
        sb.repoSchema = some fetched →
        (updateSchemaRun repo sb inj st pts).2.2
          = [PCall.getRepo repo,
             PCall.updateRepo repo
               (updateSchemaPayload fetched (extractSchemaFromPoints pts).1
                 (extractSchemaFromPoints pts).2)]
            ++ (updateExportRun repo inj st pts).2.2)
  ∧ (∀ (fetched : List RepoSchemaEntry) (tags : List String)
        (fields : List (String × String)),
        updateSchemaPayload fetched tags fields
          = fetched ++ deltaEntries (updateSchemaDelta fetched tags fields)
      ∧ (∀ k v, (k, v) ∈ updateSchemaDelta fetched tags fields →
            fetched.any (fun en => en.key = k) = false)
      ∧ (∀ k, lookupKey (updateSchemaDelta fetched tags fields) k =
            if fetched.any (fun en => en.key = k) then none
            else if k ∈ tags then some "string"
            else
              match lookupKey fields k with
              | some ty => some ty
              | none => if k = "timestamp" then some "long" else none)) := by
  constructor
  · intro repo sb inj st pts fetched hfetch
    simp [updateSchemaRun, hfetch]
  · intro fetched tags fields
    refine ⟨rfl, ?_, fun k => updateSchemaDelta_lookup fetched tags fields k⟩
    intro k v hmem
    by_contra hne
    have hany : fetched.any (fun en => en.key = k) = true := by
      cases hb : fetched.any (fun en => en.key = k)
      · exact absurd hb hne
      · rfl
    have hs := lookupKey_isSome_of_mem hmem
    rw [updateSchemaDelta_lookup fetched tags fields k, if_pos hany] at hs
    simp at hs

/-- Witness for C1 at a concrete reconciliation. -/
theorem updateSchema_delta_characterization_witness :
    (updateSchemaRun "r" ⟨some [⟨"a", "string", false⟩], none, none, none⟩
        noInj ⟨[], []⟩ []).2.2
      = [PCall.getRepo "r",
         PCall.updateRepo "r" (updateSchemaPayload [⟨"a", "string", false⟩] [] [])]
        ++ (updateExportRun "r" noInj ⟨[], []⟩ []).2.2 :=
  updateSchema_delta_characterization.1 "r" _ noInj _ [] _ rfl

/-- C1 counterexample to the claim as stated: the point `m` with tag `v`
and integer field `v` extracts tag key "m_v" and field key "m_v" of
inferred type "long"; that field key is absent from the (empty) fetched
schema, yet the delta carries it as "string" (the tag pass bound it
first), not as its inferred type. -/
theorem updateSchema_tag_shadows_field_type :
    extractSchemaFromPoints [⟨"m", [("v", "x")], [("v", FVal.intV 5)], 0⟩]
        = (["m_v"], [("m_v", "long")])
  ∧ lookupKey (updateSchemaDelta [] ["m_v"] [("m_v", "long")]) "m_v" = some "string"
  ∧ ("m_v", "long") ∉ updateSchemaDelta [] ["m_v"] [("m_v", "long")] := by
  decide

/-! ### Claim C2 -/

/-- C2 counterexample to the claim as stated: in the bootstrap
(`createRepo`) branch a PIPELINE repo creation failure is returned from
the reconciliation (the claim says it is not), while a TSDB repo creation
failure is not returned — its wrapped error is overwritten by the export
reconciliation result on the very next line (the claim says it is
escalated). -/
theorem bootstrap_escalation_inverted :
    (updateSchemaRun "r" ⟨none, some "boom", none, none⟩ noInj ⟨[], []⟩ []).1
        = some "boom"
  ∧ (updateSchemaRun "r" ⟨none, none, some "tboom", none⟩ noInj ⟨[], []⟩ []).1
        = none := by
  decide

/-- C2 (amended).  During repo bootstrap, a pipeline repo creation failure
is the escalated one: `updateSchema` returns it at once.  When the
pipeline repo creation succeeds, the reconciliation's result is exactly
the export reconciliation's result, whatever the TSDB repo creation
returned — that failure is wrapped into the error variable and then
overwritten, so it alone never surfaces. -/
theorem bootstrap_error_propagation (repo : String) (sb : SchemaBackend)
    (inj : ExportInj) (st : ExportState) (pts : List Point)
    (hmiss : sb.repoSchema = none) :
    (updateSchemaRun repo sb inj st pts).1 =
      match sb.createRepoFail with
      | some e => some e
      | none => (updateExportRun repo inj st pts).1 := by
  cases hc : sb.createRepoFail <;> simp [updateSchemaRun, hmiss, hc]

/-- Witness for C2: a concrete bootstrap whose pipeline repo creation
fails with "x" makes the reconciliation return exactly that error. -/
theorem bootstrap_error_propagation_witness :
    (updateSchemaRun "r" ⟨none, some "x", none, none⟩ noInj ⟨[], []⟩ []).1
      = some "x" :=
  bootstrap_error_propagation "r" ⟨none, some "x", none, none⟩ noInj ⟨[], []⟩ [] rfl

/-! ### Claim C3 -/

theorem splitOnChar_ne_nil (c : Char) (l : List Char) : splitOnChar c l ≠ [] := by
  cases l with
  | nil => simp [splitOnChar]
  | cons x xs =>
    simp only [splitOnChar]
    by_cases h : x = c
    · simp [h]
    · cases hr : splitOnChar c xs <;> simp [h, hr]

theorem splitOnChar_append (c : Char) (l₁ l₂ : List Char) :
    splitOnChar c (l₁ ++ c :: l₂) = splitOnChar c l₁ ++ splitOnChar c l₂ := by
  induction l₁ with
  | nil => simp [splitOnChar]
  | cons x xs ih =>
    simp only [List.cons_append, splitOnChar, List.append_eq]
    rw [ih]
    by_cases h : x = c
    · simp [h]
    · cases hr : splitOnChar c xs with
      | nil => exact absurd hr (splitOnChar_ne_nil c xs)
      | cons y ys => simp [h, hr]

theorem splitOnChar_of_not_mem (c : Char) (l : List Char) (h : c ∉ l) :
    splitOnChar c l = [l] := by
  induction l with
  | nil => simp [splitOnChar]
  | cons x xs ih =>
    have hx : ¬ x = c := fun he => h (List.mem_cons.mpr (Or.inl he.symm))
    have hxs : c ∉ xs := fun hm => h (List.mem_cons_of_mem x hm)
    simp [splitOnChar, hx, ih hxs]

/-- C3 (amended).  `getSeries` yields, for every nonempty line with at
least two comma-separated components, that line's first component, in
line order with duplicates KEPT (the source appends unconditionally); on
the spec's four-line input it returns exactly
`["cpu", "gpu", "test", "mem"]`. -/
theorem getSeries_per_line :
    getSeries (String.data
        "cpu,host=h1 value=123\ngpu,region=g1 value=123\ntest,host=h1 value=123\nmem,host=h1 value=123")
        = ["cpu", "gpu", "test", "mem"]
  ∧ ∀ (ls : List (List Char)), (∀ l ∈ ls, '\n' ∉ l) →
      getSeries (joinLines ls) = ls.filterMap lineSeries := by
  constructor
  · decide
  · intro ls
    induction ls with
    | nil => intro _; rfl
    | cons l ls ih =>
      intro h
      have hl : '\n' ∉ l := h l (List.mem_cons_self l ls)
      have hrest : ∀ x ∈ ls, '\n' ∉ x := fun x hx => h x (List.mem_cons_of_mem l hx)
      cases ls with
      | nil =>
        show getSeries l = _
        simp only [getSeries]
        rw [splitOnChar_of_not_mem '\n' l hl]
      | cons l₂ ls₂ =>
        have hrec := ih hrest
        show getSeries (l ++ '\n' :: joinLines (l₂ :: ls₂)) = _
        simp only [getSeries] at hrec ⊢
        rw [splitOnChar_append, splitOnChar_of_not_mem '\n' l hl,
            List.filterMap_append, hrec]
        cases hls : lineSeries l <;> simp [List.filterMap_cons, hls]

/-- Witness for C3: two newline-joined lines naming the same series give
its name twice. -/
theorem getSeries_per_line_witness :
    getSeries (joinLines [String.data "cpu,a=b x=1", String.data "cpu,a=c x=1"])
      = ["cpu", "cpu"] :=
  (getSeries_per_line.2 [String.data "cpu,a=b x=1", String.data "cpu,a=c x=1"]
      (by decide)).trans (by decide)

/-- C3 counterexample to the claim as stated: an input whose two lines
name the same series produces that name twice — `getSeries` does not
remove duplicates. -/
theorem getSeries_keeps_duplicates :
    getSeries (String.data "cpu,host=h1 value=1\ncpu,host=h2 value=1")
        = ["cpu", "cpu"]
  ∧ ¬ (getSeries (String.data "cpu,host=h1 value=1\ncpu,host=h2 value=1")).Nodup := by
  decide

/-! ### Claims C4, C5, C7, C10 -/

/-- C4 counterexample to the claim as stated: the TSDB variant with
`auto_create_series = false` and a backend write error carrying the
missing-series code E7101 returns the sentinel error, not nil — the
missing-series outcome is NOT swallowed as success. -/
theorem tsdb_missing_series_not_swallowed :
    (tsdbWrite ⟨"r", "", false, true⟩ (String.data "cpu,host=h1 value=1")
        (some "E7101 series does not exist")).1
      = RunResult.returns (some sentinelMsg)
  ∧ (tsdbWrite ⟨"r", "", false, true⟩ (String.data "cpu,host=h1 value=1")
        (some "E7101 series does not exist")).1
      ≠ RunResult.returns none := by
  decide

/-- C4 (amended).  Only the Pipeline variant swallows the missing-object
outcome: on an E18102 missing-repo error with `auto_create_repo = false`
its `Write` returns nil, while the TSDB variant on an E7101 missing-series
error with `auto_create_series = false` (and no type-conflict text)
returns the sentinel error. -/
theorem missing_object_swallow_behavior :
    (∀ (a : PipelineAdapter) (pts : List Point) (now : Nat) (b : PBackend)
        (e : String),
        a.connected = true → a.autoCreateRepo = false →
        b.postResult = some e → strContains e "E18102" = true →
        (pipelineWrite a pts now b).1 = RunResult.returns none)
  ∧ (∀ (a : TsdbAdapter) (buf : List Char) (e : String),
        a.connected = true → a.autoCreateSeries = false → buf ≠ [] →
        strContains e "field type conflict" = false →
        strContains e "E7101" = true →
        (tsdbWrite a buf (some e)).1 = RunResult.returns (some sentinelMsg)) := by
  constructor
  · intro a pts now b e hconn hauto hpost he
    simp [pipelineWrite, hconn, hauto, hpost, he]
  · intro a buf e hconn hauto hne hnc he
    simp [tsdbWrite, hconn, hauto, hne, hnc, he]

/-- Witness for C4: a concrete Pipeline write hitting E18102 with the
auto-create flag off returns nil. -/
theorem missing_object_swallow_behavior_witness :
    (pipelineWrite ⟨"r", false, true⟩ [] 0
        ⟨some "E18102 repo does not exist", ⟨none, none, none, none⟩, noInj,
          ⟨[], []⟩⟩).1
      = RunResult.returns none :=
  missing_object_swallow_behavior.1 ⟨"r", false, true⟩ [] 0
    ⟨some "E18102 repo does not exist", ⟨none, none, none, none⟩, noInj, ⟨[], []⟩⟩
    "E18102 repo does not exist" rfl rfl rfl (by decide)

/-- C5.  A backend write error containing "field type conflict" makes the
TSDB `Write` return nil, and the call trace holds exactly the single
write attempt — no retry is issued within the invocation. -/
theorem field_type_conflict_silent_drop (a : TsdbAdapter) (buf : List Char)
    (e : String) (hconn : a.connected = true) (hne : buf ≠ [])
    (hconf : strContains e "field type conflict" = true) :
    (tsdbWrite a buf (some e)).1 = RunResult.returns none
  ∧ (tsdbWrite a buf (some e)).2 = [TsdbCall.postPoints a.repo buf] := by
  constructor <;> simp [tsdbWrite, hconn, hne, hconf]

/-- Witness for C5 at a concrete conflicting write. -/
theorem field_type_conflict_silent_drop_witness :
    (tsdbWrite ⟨"test", "", false, true⟩ (String.data "cpu,host=h1 value=1")
        (some "field type conflict: input field value is type integer")).1
      = RunResult.returns none
  ∧ (tsdbWrite ⟨"test", "", false, true⟩ (String.data "cpu,host=h1 value=1")
        (some "field type conflict: input field value is type integer")).2
      = [TsdbCall.postPoints "test" (String.data "cpu,host=h1 value=1")] :=
  field_type_conflict_silent_drop ⟨"test", "", false, true⟩ _ _ rfl (by decide)
    (by decide)

/-- C7 (the code bug).  Calling `Write` on an adapter that never completed
`Connect` does crash: with a nonempty batch the TSDB variant, and with any
batch the Pipeline variant, call the backend through a nil client
interface and panic instead of returning an error. -/
theorem write_before_connect_panics :
    (tsdbWrite ⟨"r", "", false, false⟩ (String.data "cpu,host=h1 value=1")
        none).1 = RunResult.panics
  ∧ (pipelineWrite ⟨"r", false, false⟩ [] 0
        ⟨none, ⟨none, none, none, none⟩, noInj, ⟨[], []⟩⟩).1
      = RunResult.panics := by
  decide

/-- C10.  Whenever the TSDB backend write fails with a message not
containing "field type conflict", `Write` returns the fixed sentinel
error rather than the backend's error; in the missing-series case (E7101)
with `auto_create_series` enabled, series creation is attempted for every
series of the buffer, but the sentinel error is returned all the same. -/
theorem tsdb_sentinel_error (a : TsdbAdapter) (buf : List Char) (e : String)
    (hconn : a.connected = true) (hne : buf ≠ [])
    (hnc : strContains e "field type conflict" = false) :
    (tsdbWrite a buf (some e)).1 = RunResult.returns (some sentinelMsg)
  ∧ (strContains e "E7101" = true → a.autoCreateSeries = true →
      (tsdbWrite a buf (some e)).2
        = TsdbCall.postPoints a.repo buf
            :: (getSeries buf).map (fun s => TsdbCall.createSeries a.repo s a.retention)) := by
  constructor
  · by_cases h7 : strContains e "E7101" && a.autoCreateSeries
    · simp [tsdbWrite, hconn, hne, hnc, h7]
    · simp only [Bool.not_eq_true] at h7
      simp [tsdbWrite, hconn, hne, hnc, h7]
  · intro h7 hauto
    simp [tsdbWrite, hconn, hne, hnc, h7, hauto]

/-- Witness for C10: a concrete E7101 failure with auto-create on returns
the sentinel and logs the single create-series attempt. -/
theorem tsdb_sentinel_error_witness :
    (tsdbWrite ⟨"r", "3d", true, true⟩ (String.data "cpu,host=h1 value=1")
        (some "E7101 series does not exist")).1
      = RunResult.returns (some sentinelMsg)
  ∧ (tsdbWrite ⟨"r", "3d", true, true⟩ (String.data "cpu,host=h1 value=1")
        (some "E7101 series does not exist")).2
      = TsdbCall.postPoints "r" (String.data "cpu,host=h1 value=1")
          :: (getSeries (String.data "cpu,host=h1 value=1")).map
              (fun s => TsdbCall.createSeries "r" s "3d") :=
  ⟨(tsdb_sentinel_error ⟨"r", "3d", true, true⟩ _ _ rfl (by decide) (by decide)).1,
   (tsdb_sentinel_error ⟨"r", "3d", true, true⟩ _ _ rfl (by decide) (by decide)).2
     (by decide) rfl⟩

/-! ### Claim C6 -/

theorem exports_bCreateSeries (st : ExportState) (n : String) :
    (bCreateSeries st n).2.exports = st.exports := by
  by_cases h : n ∈ st.seriesNames <;> simp [bCreateSeries, h]

/-- C6.  `createOrUpdateExport` is idempotent on a backend where the
export is initially absent: the first call issues one successful export
create; the second call's create observes the E18301 already-exists
answer and issues one update with the identical spec; both calls return
nil, and the final export table equals the one produced by the single
fresh create. -/
theorem createOrUpdateExport_idempotent (repo seriesName : String)
    (tags fields : List String) (st : ExportState)
    (habs : lookupKey st.exports (exportNameOf seriesName) = none) :
    (createOrUpdateExport repo noInj st seriesName tags fields).1 = none
  ∧ (createOrUpdateExport repo noInj st seriesName tags fields).2.2
      = [PCall.createSeries repo seriesName "7d",
         PCall.createExport repo (exportNameOf seriesName)
           (mkExportSpec repo seriesName tags fields)]
  ∧ (createOrUpdateExport repo noInj st seriesName tags fields).2.1.exports
      = (exportNameOf seriesName, mkExportSpec repo seriesName tags fields)
          :: st.exports
  ∧ (createOrUpdateExport repo noInj
        (createOrUpdateExport repo noInj st seriesName tags fields).2.1
        seriesName tags fields).1 = none
  ∧ (createOrUpdateExport repo noInj
        (createOrUpdateExport repo noInj st seriesName tags fields).2.1
        seriesName tags fields).2.2
      = [PCall.createSeries repo seriesName "7d",
         PCall.createExport repo (exportNameOf seriesName)
           (mkExportSpec repo seriesName tags fields),
         PCall.updateExport repo (exportNameOf seriesName)
           (mkExportSpec repo seriesName tags fields)]
  ∧ (createOrUpdateExport repo noInj
        (createOrUpdateExport repo noInj st seriesName tags fields).2.1
        seriesName tags fields).2.1.exports
      = (createOrUpdateExport repo noInj st seriesName tags fields).2.1.exports := by
  have hse : (bCreateSeries st seriesName).2.exports = st.exports :=
    exports_bCreateSeries st seriesName
  have hlook0 : (lookupKey st.exports (exportNameOf seriesName)).isSome = false := by
    rw [habs]; rfl
  have hrun1 : createOrUpdateExport repo noInj st seriesName tags fields
      = (none,
         { seriesNames := (bCreateSeries st seriesName).2.seriesNames,
           exports := (exportNameOf seriesName,
             mkExportSpec repo seriesName tags fields) :: st.exports },
         [PCall.createSeries repo seriesName "7d",
          PCall.createExport repo (exportNameOf seriesName)
            (mkExportSpec repo seriesName tags fields)]) := by
    simp [createOrUpdateExport, bCreateExport, noInj, hlook0, hse]
  have hmap : ((exportNameOf seriesName,
        mkExportSpec repo seriesName tags fields) :: st.exports).map
        (fun p => if p.1 = exportNameOf seriesName
          then (exportNameOf seriesName, mkExportSpec repo seriesName tags fields)
          else p)
      = (exportNameOf seriesName, mkExportSpec repo seriesName tags fields)
          :: st.exports := by
    rw [List.map_cons, map_replace_of_lookup_none st.exports _ _ habs]
    simp
  set st1 : ExportState :=
    { seriesNames := (bCreateSeries st seriesName).2.seriesNames,
      exports := (exportNameOf seriesName,
        mkExportSpec repo seriesName tags fields) :: st.exports } with hst1def
  have hse2 : (bCreateSeries st1 seriesName).2.exports = st1.exports :=
    exports_bCreateSeries st1 seriesName
  have hlook2 : (lookupKey (bCreateSeries st1 seriesName).2.exports
      (exportNameOf seriesName)).isSome = true := by
    rw [hse2, hst1def]
    simp [lookupKey]
  have hrun2 : createOrUpdateExport repo noInj st1 seriesName tags fields
      = (none,
         { seriesNames := (bCreateSeries st1 seriesName).2.seriesNames,
           exports := (exportNameOf seriesName,
             mkExportSpec repo seriesName tags fields) :: st.exports },
         [PCall.createSeries repo seriesName "7d",
          PCall.createExport repo (exportNameOf seriesName)
            (mkExportSpec repo seriesName tags fields),
          PCall.updateExport repo (exportNameOf seriesName)
            (mkExportSpec repo seriesName tags fields)]) := by
    have hcode : strContains "E18301 export already exists" "E18301" = true := by
      decide
    have hlookc : (lookupKey ((exportNameOf seriesName,
        mkExportSpec repo seriesName tags fields) :: st.exports)
        (exportNameOf seriesName)).isSome = true := by
      simp [lookupKey]
    simp only [createOrUpdateExport, bCreateExport, hlook2, if_true]
    simp only [bUpdateExport, noInj, hcode, hse2, hst1def, hmap]
    simp [hlookc, hmap]
  simp [hrun1, hrun2, hst1def]

/-- Witness for C6 on a concrete series over an empty backend. -/
theorem createOrUpdateExport_idempotent_witness :
    (createOrUpdateExport "r" noInj ⟨[], []⟩ "cpu" ["host"] ["value"]).1 = none
  ∧ (createOrUpdateExport "r" noInj ⟨[], []⟩ "cpu" ["host"] ["value"]).2.2
      = [PCall.createSeries "r" "cpu" "7d",
         PCall.createExport "r" (exportNameOf "cpu")
           (mkExportSpec "r" "cpu" ["host"] ["value"])]
  ∧ (createOrUpdateExport "r" noInj ⟨[], []⟩ "cpu" ["host"] ["value"]).2.1.exports
      = (exportNameOf "cpu", mkExportSpec "r" "cpu" ["host"] ["value"])
          :: (⟨[], []⟩ : ExportState).exports
  ∧ (createOrUpdateExport "r" noInj
        (createOrUpdateExport "r" noInj ⟨[], []⟩ "cpu" ["host"] ["value"]).2.1
        "cpu" ["host"] ["value"]).1 = none
  ∧ (createOrUpdateExport "r" noInj
        (createOrUpdateExport "r" noInj ⟨[], []⟩ "cpu" ["host"] ["value"]).2.1
        "cpu" ["host"] ["value"]).2.2
      = [PCall.createSeries "r" "cpu" "7d",
         PCall.createExport "r" (exportNameOf "cpu")
           (mkExportSpec "r" "cpu" ["host"] ["value"]),
         PCall.updateExport "r" (exportNameOf "cpu")
           (mkExportSpec "r" "cpu" ["host"] ["value"])]
  ∧ (createOrUpdateExport "r" noInj
        (createOrUpdateExport "r" noInj ⟨[], []⟩ "cpu" ["host"] ["value"]).2.1
        "cpu" ["host"] ["value"]).2.1.exports
      = (createOrUpdateExport "r" noInj ⟨[], []⟩ "cpu" ["host"] ["value"]).2.1.exports :=
  createOrUpdateExport_idempotent "r" "cpu" ["host"] ["value"] ⟨[], []⟩ rfl

/-! ### Claim C8 -/

/-- C8.  On a successful backend write by a connected Pipeline adapter,
`Write` returns nil in every case, and it re-runs the export reconciler
over the just-written points exactly when the wall-clock second
(`nowUnix % 60`) is below 11 — the result of that opportunistic refresh,
success or failure, never changes the nil return. -/
theorem pipeline_opportunistic_refresh (a : PipelineAdapter) (pts : List Point)
    (now : Nat) (b : PBackend) (hconn : a.connected = true)
    (hok : b.postResult = none) :
    pipelineWrite a pts now b =
      if now % 60 < 11 then
        (RunResult.returns none, (updateExportRun a.repo b.inj b.st pts).2.1,
         PCall.postData a.repo (serializePoints pts)
           :: (updateExportRun a.repo b.inj b.st pts).2.2)
      else
        (RunResult.returns none, b.st,
         [PCall.postData a.repo (serializePoints pts)]) := by
  by_cases h : now % 60 < 11 <;> simp [pipelineWrite, hconn, hok, h]

/-- Witness for C8 in the refresh window (second 5 of the minute). -/
theorem pipeline_opportunistic_refresh_witness :
    pipelineWrite ⟨"r", false, true⟩ [] 5
        ⟨none, ⟨none, none, none, none⟩, noInj, ⟨[], []⟩⟩
      = (RunResult.returns none,
         (updateExportRun "r" noInj ⟨[], []⟩ []).2.1,
         PCall.postData "r" (serializePoints [])
           :: (updateExportRun "r" noInj ⟨[], []⟩ []).2.2) :=
  (pipeline_opportunistic_refresh ⟨"r", false, true⟩ [] 5
      ⟨none, ⟨none, none, none, none⟩, noInj, ⟨[], []⟩⟩ rfl rfl).trans
    (if_pos (by decide))

/-! ### Claim C9 -/

theorem setKey_map_fst {α β : Type} [DecidableEq α] (m : List (α × β))
    (k : α) (v : β) :
    (setKey m k v).map Prod.fst
      = if k ∈ m.map Prod.fst then m.map Prod.fst
        else m.map Prod.fst ++ [k] := by
  induction m with
  | nil => simp [setKey]
  | cons p rest ih =>
    by_cases hp : p.1 = k
    · simp [setKey, hp]
    · simp only [setKey, if_neg hp, List.map_cons, ih]
      by_cases hm : k ∈ rest.map Prod.fst <;> simp [hm, Ne.symm hp]

theorem groupByTime_keys (pts : List Point) (acc : List (Int × List Point)) :
    ((pts.foldl
        (fun acc pt => setKey acc pt.time ((lookupKey acc pt.time).getD [] ++ [pt]))
        acc).map Prod.fst)
      = pts.foldl (fun l pt => addDistinct l pt.time) (acc.map Prod.fst) := by
  induction pts generalizing acc with
  | nil => rfl
  | cons pt rest ih =>
    rw [List.foldl_cons, List.foldl_cons, ih, setKey_map_fst]
    rfl

theorem mem_addDistinctFold {α : Type} [DecidableEq α] (ts : List α)
    (l : List α) (x : α) :
    x ∈ ts.foldl addDistinct l ↔ x ∈ l ∨ x ∈ ts := by
  induction ts generalizing l with
  | nil => simp
  | cons t ts ih =>
    rw [List.foldl_cons, ih]
    by_cases ht : t ∈ l
    · simp only [addDistinct, if_pos ht, List.mem_cons]
      constructor
      · intro h
        rcases h with h | h
        · exact Or.inl h
        · exact Or.inr (Or.inr h)
      · intro h
        rcases h with h | h | h
        · exact Or.inl h
        · exact Or.inl (by rw [h]; exact ht)
        · exact Or.inr h
    · simp [addDistinct, ht, or_assoc]

theorem nodup_addDistinctFold {α : Type} [DecidableEq α] (ts : List α)
    (l : List α) (hl : l.Nodup) : (ts.foldl addDistinct l).Nodup := by
  induction ts generalizing l with
  | nil => exact hl
  | cons t ts ih =>
    rw [List.foldl_cons]
    apply ih
    by_cases ht : t ∈ l
    · rw [addDistinct, if_pos ht]; exact hl
    · rw [addDistinct, if_neg ht, List.nodup_append]
      refine ⟨hl, List.nodup_singleton t, ?_⟩
      intro a ha hat
      rw [List.mem_singleton] at hat
      exact ht (hat ▸ ha)

/-- C9.  The Point Model Adapter emits exactly one newline-terminated
line per distinct point timestamp: the number of output lines of
`serializePoints` equals the number of distinct timestamps of the batch,
points sharing a timestamp being collapsed into one line. -/
theorem serialize_lines_eq_distinct_timestamps (pts : List Point) :
    (serializePoints pts).length = (pts.map Point.time).toFinset.card := by
  have hkeys : (groupByTime pts).map Prod.fst
      = (pts.map Point.time).foldl addDistinct [] := by
    rw [groupByTime, groupByTime_keys pts [], List.foldl_map]
    rfl
  have hnd : ((pts.map Point.time).foldl addDistinct []).Nodup :=
    nodup_addDistinctFold _ _ List.nodup_nil
  have hset : ((pts.map Point.time).foldl addDistinct []).toFinset
      = (pts.map Point.time).toFinset := by
    ext a
    simp [List.mem_toFinset, mem_addDistinctFold]
  calc (serializePoints pts).length
      = (groupByTime pts).length := by rw [serializePoints, List.length_map]
    _ = ((groupByTime pts).map Prod.fst).length := (List.length_map _ _).symm
    _ = ((pts.map Point.time).foldl addDistinct []).length := by rw [hkeys]
    _ = ((pts.map Point.time).foldl addDistinct []).toFinset.card :=
        (List.toFinset_card_of_nodup hnd).symm
    _ = (pts.map Point.time).toFinset.card := by rw [hset]

end Pandora
